import Mathlib

/-!
Shallow embedding of the TwiN/k8s-ttl-controller reconciliation engine
(`main.go`).  Times and durations are modelled as `Int` nanoseconds
(Go's `time.Time`/`time.Duration`), annotation maps as association lists,
and the external library calls (`str2duration.ParseDuration`,
`time.Parse(time.RFC3339, _)`, the dynamic client's delete outcome) as
parameters collected in an `Env` record.  The paginated list loop of
`DoReconcile` is embedded as structural recursion over the finite list of
responses the API server gives to successive list requests, producing a
trace of observable events (requests with their continuation token,
expiry log notices, delete attempts, throttle sleeps).
-/

namespace K8sTTL

/-- `AnnotationTTL` from `main.go`. -/
def AnnotationTTL : String := "k8s-ttl-controller.twin.sh/ttl"

/-- `AnnotationRefreshedAt` from `main.go`. -/
def AnnotationRefreshedAt : String := "k8s-ttl-controller.twin.sh/refreshed-at"

/-- Nanoseconds in `time.Second`. -/
def nanosPerSecond : Int := 1000000000

/-- One API resource descriptor (`metav1.APIResource`): plural name and verb set. -/
structure APIResource where
  name : String
  verbs : List String
deriving DecidableEq

/-- One discovery group (`metav1.APIResourceList`). -/
structure APIResourceList where
  groupVersion : String
  apiResources : List APIResource
deriving DecidableEq

/-- A resource instance (`unstructured.Unstructured`): the fields the controller reads. -/
structure Item where
  name : String
  nspace : String
  kind : String
  annotations : List (String × String)
  creationTimestamp : Int
deriving DecidableEq

/-- One page of a list response (`unstructured.UnstructuredList`). -/
structure Page where
  items : List Item
  continueToken : String
deriving DecidableEq

/-- Outcome of one `dynamicClient.Resource(gvr).List` call: an error
(the client returns a nil list together with the error) or a page. -/
inductive ListResponse where
  | failure
  | success (page : Page)
deriving DecidableEq

/-- `schema.GroupVersionResource`. -/
structure GroupVersionResource where
  group : String
  version : String
  resource : String
deriving DecidableEq

/-- Ambient inputs of one pass: the wall clock and the external library
calls (`str2duration.ParseDuration`, RFC3339 parsing, and whether a given
delete call succeeds). -/
structure Env where
  now : Int
  parseDuration : String → Option Int
  parseRFC3339 : String → Option Int
  deleteSucceeds : String → Bool

/-- Go map indexing `item.GetAnnotations()[key]` over an association list. -/
def lookupAnnot : List (String × String) → String → Option String
  | [], _ => none
  | (k, v) :: rest, key => if k = key then some v else lookupAnnot rest key

/-- `getStartTime` from `main.go`: the refreshed-at annotation when present
and RFC3339-parseable, otherwise the creation timestamp (a malformed value
is only logged). -/
def getStartTime (env : Env) (item : Item) : Int :=
  match lookupAnnot item.annotations AnnotationRefreshedAt with
  | some refreshedAt =>
    match env.parseRFC3339 refreshedAt with
    | some t => t
    | none => item.creationTimestamp
  | none => item.creationTimestamp

/-- `contains` from `main.go`. -/
def contains : List String → String → Bool
  | [], _ => false
  | s :: rest, item => if s = item then true else contains rest item

/-- Go `strings.Contains` on character lists: `sub` occurs as a contiguous
substring of `s`. -/
def charsContains (sub : List Char) : List Char → Bool
  | [] => sub.isEmpty
  | c :: t => sub.isPrefixOf (c :: t) || charsContains sub t

/-- Space-joined rendering of a verb slice inside brackets: what
`metav1.Verbs.String()` (a `fmt.Sprintf("%v", []string(vs))`) produces. -/
def joinVerbs : List String → List Char
  | [] => []
  | [v] => v.data
  | v :: rest => v.data ++ ' ' :: joinVerbs rest

/-- The characters of `apiResource.Verbs.String()`. -/
def verbsString (verbs : List String) : List Char :=
  '[' :: (joinVerbs verbs ++ [']'])

/-- The allow-list skip of `main.go` line 156:
`len(apiResourcesToWatch) != 0 && !contains(apiResourcesToWatch, apiResource.Name)`. -/
def allowListSkip (watch : List String) (name : String) : Bool :=
  watch.length != 0 && !contains watch name

/-- The verb skip of `main.go` line 161:
`!strings.Contains(verbs, "list") || !strings.Contains(verbs, "delete")`. -/
def verbsSkip (verbs : List String) : Bool :=
  !charsContains "list".data (verbsString verbs) ||
    !charsContains "delete".data (verbsString verbs)

/-- A resource-kind survives both per-kind skips and is enumerated. -/
def kindEnumerated (watch : List String) (r : APIResource) : Bool :=
  !allowListSkip watch r.name && !verbsSkip r.verbs

/-- Go `strings.Split` specialised to the separator `"/"`. -/
def splitSlash : List Char → List (List Char)
  | [] => [[]]
  | c :: cs =>
    if c = '/' then [] :: splitSlash cs
    else
      match splitSlash cs with
      | [] => [[c]]
      | h :: t => (c :: h) :: t

/-- GVR derivation of `main.go` lines 144-153: split the group/version
string on `"/"`; two fields give group and version, one field gives an
empty group with the field as version, anything else skips the group. -/
def parseGroupVersion (s : String) : Option (String × String) :=
  match splitSlash s.data with
  | [g, v] => some (⟨g⟩, ⟨v⟩)
  | [v] => some ("", ⟨v⟩)
  | _ => none

/-- Go `time.Duration.Round` on unbounded integers (the saturation branches
for int64 overflow never trigger and are omitted); `Int.tmod` is Go's
truncated `%`. -/
def durRound (d m : Int) : Int :=
  if m ≤ 0 then d
  else
    let r := Int.tmod d m
    if d < 0 then
      let r' := -r
      if r' + r' < m then d + r' else d - m + r'
    else
      if r + r < m then d - r else d + m - r

/-- Observable events of the per-kind loop body. -/
inductive Event where
  | request (token : String)
  | expiredNotice (overshoot : Int)
  | deleteAttempt (name : String) (succeeded : Bool)
  | throttle
  | pendingNotice (remaining : Int)
deriving DecidableEq

/-- Processing of one listed item, `main.go` lines 180-207: skip without
the TTL annotation, skip on an unparseable TTL, otherwise compare `now`
with anchor + ttl (`time.Now().After(...)`, strict); when expired, log the
overshoot rounded to the second, attempt the delete and throttle; when not
expired, log the rounded remaining time. -/
def processItem (env : Env) (item : Item) : List Event :=
  match lookupAnnot item.annotations AnnotationTTL with
  | none => []
  | some ttl =>
    match env.parseDuration ttl with
    | none => []
    | some ttlInDuration =>
      if env.now > getStartTime env item + ttlInDuration then
        [Event.expiredNotice
          (durRound (env.now - (getStartTime env item + ttlInDuration)) nanosPerSecond),
         Event.deleteAttempt item.name (env.deleteSucceeds item.name),
         Event.throttle]
      else
        [Event.pendingNotice
          (durRound ((getStartTime env item + ttlInDuration) - env.now) nanosPerSecond)]

/-- The inner `for _, item := range list.Items` loop. -/
def itemsEvents (env : Env) : List Item → List Event
  | [] => []
  | i :: rest => processItem env i ++ itemsEvents env rest

/-- State of the pagination loop: the last assigned `list` pointer and the
`continueToken` variable. -/
structure LoopState where
  fetched : Option Page
  token : String
deriving DecidableEq

/-- The loop guard `list == nil || continueToken != ""`. -/
def loopCond (s : LoopState) : Bool :=
  s.fetched.isNone || s.token != ""

/-- Result of running the pagination loop against a finite prefix of server
responses: either the guard became false (`done`) or the responses ran out
with the guard still true (`starved`, i.e. the loop would keep requesting). -/
inductive RunResult where
  | done (trace : List Event)
  | starved (trace : List Event)
deriving DecidableEq

/-- The trace component of a run result. -/
def traceOf : RunResult → List Event
  | .done tr => tr
  | .starved tr => tr

/-- Whether the loop reached its exit condition. -/
def isDone : RunResult → Bool
  | .done _ => true
  | .starved _ => false

/-- Prefix a run result's trace with earlier events. -/
def prependEvents (evs : List Event) : RunResult → RunResult
  | .done tr => .done (evs ++ tr)
  | .starved tr => .starved (evs ++ tr)

/-- The pagination loop of `main.go` lines 170-211, one response consumed
per list request.  A failed request leaves `continueToken` unchanged and
resets `list` to nil, then retries; a successful request stores the page,
adopts its continuation token, processes its items, and throttles. -/
def runLoop (env : Env) (s : LoopState) : List ListResponse → RunResult
  | [] => if loopCond s then .starved [] else .done []
  | r :: rs =>
    if loopCond s then
      match r with
      | .failure => prependEvents [.request s.token] (runLoop env ⟨none, s.token⟩ rs)
      | .success page =>
        prependEvents (.request s.token :: (itemsEvents env page.items ++ [.throttle]))
          (runLoop env ⟨some page, page.continueToken⟩ rs)
    else .done []

/-- The continuation token of a request event, `none` for other events. -/
def reqTok : Event → Option String
  | .request t => some t
  | _ => none

/-- The continuation tokens carried by the requests of a trace, in order. -/
def requestTokens (r : RunResult) : List String :=
  (traceOf r).filterMap reqTok

/-- A response that makes the loop guard false on the next check: a
success whose continuation token is empty. -/
def endsPagination : ListResponse → Bool
  | .failure => false
  | .success p => p.continueToken == ""

/-- The inner `for _, apiResource := range resource.APIResources` loop of
`DoReconcile` for one group, given the server's responses per GVR.  The
result is `some true` when every surviving kind's pagination loop reached
its exit condition (the loop body completes and moves on) and `none` when
some pagination loop never terminates (the pass never completes). -/
def processKinds (env : Env) (lrs : GroupVersionResource → List ListResponse)
    (watch : List String) (group version : String) : List APIResource → Option Bool
  | [] => some true
  | r :: rest =>
    if allowListSkip watch r.name then processKinds env lrs watch group version rest
    else if verbsSkip r.verbs then processKinds env lrs watch group version rest
    else if isDone (runLoop env ⟨none, ""⟩ (lrs ⟨group, version, r.name⟩)) then
      processKinds env lrs watch group version rest
    else none

/-- The outer `for _, resource := range resources` loop of `DoReconcile`:
groups without resources are skipped, a group/version string that splits
into neither one nor two fields skips the group, and the function returns
`true` after the loop (`none` models a pass that never completes because a
pagination loop never terminates). -/
def processGroups (env : Env) (lrs : GroupVersionResource → List ListResponse)
    (watch : List String) : List APIResourceList → Option Bool
  | [] => some true
  | g :: rest =>
    if g.apiResources.length = 0 then processGroups env lrs watch rest
    else
      match parseGroupVersion g.groupVersion with
      | none => processGroups env lrs watch rest
      | some (grp, ver) =>
        match processKinds env lrs watch grp ver g.apiResources with
        | some _ => processGroups env lrs watch rest
        | none => none

/-- `DoReconcile` from `main.go`: its only `return` statement is
`return true`. -/
def DoReconcile (env : Env) (lrs : GroupVersionResource → List ListResponse)
    (watch : List String) (resources : List APIResourceList) : Option Bool :=
  processGroups env lrs watch resources

/-- `ErrTimedOut` from `main.go`. -/
def ErrTimedOut : String := "execution timed out"

/-- `Reconcile` from `main.go`: a discovery error is returned as is;
otherwise the deadline timer races the pipeline (`timerFirst` records
which channel the `select` received first): the timer winning returns
`ErrTimedOut`, the pipeline winning returns `nil` with the boolean read
from the result channel discarded. -/
def Reconcile (discovery : Except String (List APIResourceList)) (timerFirst : Bool)
    (env : Env) (lrs : GroupVersionResource → List ListResponse)
    (watch : List String) : Option String :=
  match discovery with
  | .error e => some e
  | .ok resources =>
    if timerFirst then some ErrTimedOut
    else
      match DoReconcile env lrs watch resources with
      | _ => none

/-- Concrete environment exhibiting the rounding of the logged overshoot:
the TTL parses to 0 and the clock sits 0.4s past the anchor. -/
def cexEnvRound : Env := ⟨400000000, fun _ => some 0, fun _ => none, fun _ => true⟩

/-- Concrete item for the overshoot-rounding counterexample. -/
def cexItemRound : Item := ⟨"res", "", "Pod", [(AnnotationTTL, "0s")], 0⟩

/-- Concrete environment for the expiry-evaluation witness: the TTL parses
to one second and the clock sits 2.5s past the creation timestamp. -/
def witEnvExpiry : Env := ⟨2500000000, fun _ => some 1000000000, fun _ => none, fun _ => true⟩

/-- Concrete item for the expiry-evaluation witness. -/
def witItemExpiry : Item := ⟨"res", "", "Pod", [(AnnotationTTL, "1s")], 0⟩

/-- Concrete environment for the anchor-selection witness: every refresh
annotation parses to 5000ns. -/
def witEnvAnchor : Env := ⟨0, fun _ => none, fun _ => some 5000, fun _ => true⟩

/-- Concrete item carrying a refresh annotation, creation timestamp 77ns. -/
def witItemAnchor : Item := ⟨"res", "", "Pod", [(AnnotationRefreshedAt, "x")], 77⟩

/-- Concrete environment for the missing/malformed-TTL witness: every TTL
fails to parse. -/
def witEnvNoTTL : Env := ⟨1000000, fun _ => none, fun _ => none, fun _ => true⟩

/-- Concrete item whose TTL annotation value does not parse. -/
def witItemNoTTL : Item := ⟨"res", "", "Pod", [(AnnotationTTL, "garbage")], 0⟩

/-- Concrete environment for the pass-result and pagination witnesses. -/
def witEnvPass : Env := ⟨0, fun _ => none, fun _ => none, fun _ => true⟩

/-- Concrete discovery snapshot: one group with one deletable kind. -/
def witResPass : List APIResourceList := [⟨"apps/v1", [⟨"deployments", ["list", "delete"]⟩]⟩]

/-- Concrete server behaviour: every list request immediately returns an
empty final page. -/
def witLrsPass : GroupVersionResource → List ListResponse := fun _ => [.success ⟨[], ""⟩]

/-- Concrete response sequence for the pagination-termination witness: one
failure, one page with a continuation token, one final page. -/
def witRsPager : List ListResponse := [.failure, .success ⟨[], "next"⟩, .success ⟨[], ""⟩]

/-- C3: the expiry anchor is the refresh annotation's value when it is
present and parses as RFC3339; when the annotation is absent, or present
but malformed, the anchor is the creation timestamp, and the evaluation
still proceeds (the fallback is total, the pass is never aborted). -/
theorem c3_anchor_selection (env : Env) (item : Item) (s : String) (t : Int) :
    (lookupAnnot item.annotations AnnotationRefreshedAt = some s →
        env.parseRFC3339 s = some t → getStartTime env item = t)
  ∧ (lookupAnnot item.annotations AnnotationRefreshedAt = none →
        getStartTime env item = item.creationTimestamp)
  ∧ (lookupAnnot item.annotations AnnotationRefreshedAt = some s →
        env.parseRFC3339 s = none → getStartTime env item = item.creationTimestamp) := by
  refine ⟨fun h1 h2 => ?_, fun h1 => ?_, fun h1 h2 => ?_⟩
  · simp [getStartTime, h1, h2]
  · simp [getStartTime, h1]
  · simp [getStartTime, h1, h2]

/-- Witness for C3 at a concrete refresh annotation and a concrete
fallback. -/
theorem c3_anchor_selection_witness :
    getStartTime witEnvAnchor witItemAnchor = 5000 ∧
    getStartTime witEnvNoTTL witItemNoTTL = 0 :=
  ⟨(c3_anchor_selection witEnvAnchor witItemAnchor "x" 5000).1 (by decide) (by decide),
   (c3_anchor_selection witEnvNoTTL witItemNoTTL "x" 0).2.1 (by decide)⟩

/-- C4: a delete attempt can only arise from an item whose TTL annotation
is present and parses as a duration; items without the annotation, and
items whose annotation fails to parse, produce no events at all (no delete
branch), and the item loop simply continues with the remaining items. -/
theorem c4_no_delete_without_valid_ttl (env : Env) (item : Item) :
    (∀ n b, Event.deleteAttempt n b ∈ processItem env item →
        ∃ s d, lookupAnnot item.annotations AnnotationTTL = some s ∧
          env.parseDuration s = some d)
  ∧ (lookupAnnot item.annotations AnnotationTTL = none → processItem env item = [])
  ∧ (∀ s, lookupAnnot item.annotations AnnotationTTL = some s →
        env.parseDuration s = none → processItem env item = [])
  ∧ (∀ rest, itemsEvents env (item :: rest) = processItem env item ++ itemsEvents env rest) := by
  refine ⟨?_, fun h1 => ?_, fun s h1 h2 => ?_, fun rest => rfl⟩
  · intro n b hmem
    cases h1 : lookupAnnot item.annotations AnnotationTTL with
    | none => simp [processItem, h1] at hmem
    | some s =>
      cases h2 : env.parseDuration s with
      | none => simp [processItem, h1, h2] at hmem
      | some d => exact ⟨s, d, rfl, h2⟩
  · simp [processItem, h1]
  · simp [processItem, h1, h2]

/-- Witness for C4 at a concrete item with an unparseable TTL annotation. -/
theorem c4_no_delete_without_valid_ttl_witness :
    processItem witEnvNoTTL witItemNoTTL = [] :=
  (c4_no_delete_without_valid_ttl witEnvNoTTL witItemNoTTL).2.2.1 "garbage"
    (by decide) (by decide)

/-- C2 counterexample: with anchor 0, TTL 0 and `now` 0.4s, the instance
is classified Expired, but the reported overshoot is the rounded 0, not
`now - (a + t) = 400000000` as the claim states. -/
theorem c2_overshoot_counterexample :
    cexEnvRound.now - (getStartTime cexEnvRound cexItemRound + 0) = 400000000
  ∧ Event.expiredNotice 400000000 ∉ processItem cexEnvRound cexItemRound
  ∧ Event.expiredNotice 0 ∈ processItem cexEnvRound cexItemRound := by
  refine ⟨by decide, by decide, by decide⟩

/-- C2 as amended: with a TTL annotation parsing to `t` and anchor
`a = getStartTime env item`, the item is classified Expired iff
`now > a + t` (strictly; at `now = a + t` it is still pending with zero
remaining time), and the overshoot reported on expiry is `now - (a + t)`
rounded to the nearest whole second. -/
theorem c2_expiry_evaluation (env : Env) (item : Item) (s : String) (t : Int)
    (hs : lookupAnnot item.annotations AnnotationTTL = some s)
    (hp : env.parseDuration s = some t) :
    ((∃ ov, Event.expiredNotice ov ∈ processItem env item) ↔
        env.now > getStartTime env item + t)
  ∧ (env.now > getStartTime env item + t →
        Event.expiredNotice (durRound (env.now - (getStartTime env item + t)) nanosPerSecond)
          ∈ processItem env item)
  ∧ (env.now = getStartTime env item + t →
        processItem env item = [Event.pendingNotice 0]) := by
  by_cases h : env.now > getStartTime env item + t
  · have hpi : processItem env item =
        [Event.expiredNotice (durRound (env.now - (getStartTime env item + t)) nanosPerSecond),
         Event.deleteAttempt item.name (env.deleteSucceeds item.name),
         Event.throttle] := by
      simp [processItem, hs, hp, h]
    refine ⟨⟨fun _ => h, fun _ => ⟨_, by rw [hpi]; exact List.mem_cons_self _ _⟩⟩,
      fun _ => by rw [hpi]; exact List.mem_cons_self _ _, fun heq => ?_⟩
    exfalso; omega
  · have hpi : processItem env item =
        [Event.pendingNotice (durRound ((getStartTime env item + t) - env.now) nanosPerSecond)] := by
      simp [processItem, hs, hp, h]
    refine ⟨⟨fun hex => ?_, fun hgt => absurd hgt h⟩, fun hgt => absurd hgt h, fun heq => ?_⟩
    · obtain ⟨ov, hov⟩ := hex
      rw [hpi] at hov
      simp at hov
    · rw [hpi, show getStartTime env item + t - env.now = 0 by omega]
      norm_num [durRound, nanosPerSecond]

/-- Witness for C2 at a concrete expired item: `now` is 2.5s, the anchor
is 0 and the TTL 1s, so the reported overshoot is 1.5s rounded up to 2s. -/
theorem c2_expiry_evaluation_witness :
    Event.expiredNotice 2000000000 ∈ processItem witEnvExpiry witItemExpiry := by
  have h := (c2_expiry_evaluation witEnvExpiry witItemExpiry "1s" 1000000000
    (by decide) (by decide)).2.1 (by decide)
  have e : durRound (witEnvExpiry.now - (getStartTime witEnvExpiry witItemExpiry + 1000000000))
      nanosPerSecond = 2000000000 := by decide
  rw [e] at h
  exact h

/-- `splitSlash` always yields at least one field. -/
theorem splitSlash_ne_nil (l : List Char) : splitSlash l ≠ [] := by
  cases l with
  | nil => simp [splitSlash]
  | cons c cs =>
    by_cases h : c = '/'
    · simp [splitSlash, h]
    · rcases hs : splitSlash cs with _ | ⟨a, t⟩ <;> simp [splitSlash, h, hs]

/-- The number of fields produced by `splitSlash` is the slash count
plus one. -/
theorem splitSlash_length (l : List Char) : (splitSlash l).length = l.count '/' + 1 := by
  induction l with
  | nil => simp [splitSlash]
  | cons c cs ih =>
    by_cases h : c = '/'
    · subst h; simp [splitSlash, ih, List.count_cons_self]
    · rcases hs : splitSlash cs with _ | ⟨a, t⟩
      · exact absurd hs (splitSlash_ne_nil cs)
      · rw [hs] at ih
        have hstep : splitSlash (c :: cs) = (c :: a) :: t := by
          simp [splitSlash, h, hs]
        rw [hstep, List.count_cons_of_ne (Ne.symm h)]
        simp only [List.length_cons] at ih ⊢
        omega

/-- A slash-free string is one single field. -/
theorem splitSlash_zero (l : List Char) (h : l.count '/' = 0) : splitSlash l = [l] := by
  induction l with
  | nil => rfl
  | cons c cs ih =>
    have hc : c ≠ '/' := by
      intro he; subst he; simp [List.count_cons_self] at h
    have hcs : cs.count '/' = 0 := by
      rw [List.count_cons_of_ne (Ne.symm hc)] at h; exact h
    simp [splitSlash, hc, ih hcs]

/-- Splitting at the first slash of `g ++ '/' :: v` when `g` is
slash-free. -/
theorem splitSlash_append_slash (g v : List Char) (h : g.count '/' = 0) :
    splitSlash (g ++ '/' :: v) = g :: splitSlash v := by
  induction g with
  | nil => simp [splitSlash]
  | cons c t ih =>
    have hc : c ≠ '/' := by
      intro he; subst he; simp [List.count_cons_self] at h
    have ht : t.count '/' = 0 := by
      rw [List.count_cons_of_ne (Ne.symm hc)] at h; exact h
    simp [splitSlash, hc, ih ht]

/-- C7: the GVR is derived by splitting the group/version string on "/":
with zero slashes the group is empty and the whole string is the version;
with exactly one slash the two fields are group and version; any other
shape makes the group skipped as malformed (no GVR, the pass continues). -/
theorem c7_gvr_derivation (s g v : String) :
    (s.data.count '/' = 0 → parseGroupVersion s = some ("", s))
  ∧ (g.data.count '/' = 0 → v.data.count '/' = 0 →
        parseGroupVersion (g ++ "/" ++ v) = some (g, v))
  ∧ (2 ≤ s.data.count '/' → parseGroupVersion s = none) := by
  refine ⟨fun h => ?_, fun hg hv => ?_, fun h => ?_⟩
  · rw [parseGroupVersion, splitSlash_zero _ h]
  · have hdata : (g ++ "/" ++ v).data = g.data ++ '/' :: v.data := by
      simp [String.data_append]
    rw [parseGroupVersion, hdata, splitSlash_append_slash _ _ hg, splitSlash_zero _ hv]
  · have h3 : 3 ≤ (splitSlash s.data).length := by
      rw [splitSlash_length]; omega
    rw [parseGroupVersion]
    rcases hs : splitSlash s.data with _ | ⟨a, _ | ⟨b, _ | ⟨c, t⟩⟩⟩ <;>
      rw [hs] at h3 <;> simp at h3 ⊢

/-- Witness for C7 on the group/version strings "v1", "apps/v1" and
"a/b/c". -/
theorem c7_gvr_derivation_witness :
    parseGroupVersion "v1" = some ("", "v1")
  ∧ parseGroupVersion ("apps" ++ "/" ++ "v1") = some ("apps", "v1")
  ∧ parseGroupVersion "a/b/c" = none :=
  ⟨(c7_gvr_derivation "v1" "" "").1 (by decide),
   (c7_gvr_derivation "" "apps" "v1").2.1 (by decide) (by decide),
   (c7_gvr_derivation "a/b/c" "" "").2.2 (by decide)⟩

/-- The `contains` helper of `main.go` decides list membership. -/
theorem contains_iff_mem (l : List String) (x : String) : contains l x = true ↔ x ∈ l := by
  induction l with
  | nil => simp [contains]
  | cons a t ih =>
    by_cases h : a = x
    · subst h; simp [contains]
    · have hxa : x ≠ a := fun he => h he.symm
      simp [contains, h, ih, hxa]

/-- C8: allow-list filtering is opt-in.  With a non-empty allow-list a
kind is enumerated exactly when its plural name is in the list and the
verb check passes; with an empty allow-list no allow-list filtering
happens and enumeration is decided by the verb check alone. -/
theorem c8_allowlist_optin (watch : List String) (r : APIResource) :
    (watch ≠ [] → (kindEnumerated watch r = true ↔
        (r.name ∈ watch ∧ verbsSkip r.verbs = false)))
  ∧ kindEnumerated [] r = !verbsSkip r.verbs := by
  constructor
  · intro hw
    have hlen : (watch.length != 0) = true := by
      cases watch with
      | nil => exact absurd rfl hw
      | cons a t => simp
    simp [kindEnumerated, allowListSkip, hlen, contains_iff_mem]
  · simp [kindEnumerated, allowListSkip]

/-- Witness for C8: a one-element allow-list admits exactly the named
kind. -/
theorem c8_allowlist_optin_witness :
    kindEnumerated ["pods"] ⟨"pods", ["list", "delete"]⟩ = true :=
  ((c8_allowlist_optin ["pods"] ⟨"pods", ["list", "delete"]⟩).1 (by decide)).mpr
    ⟨by decide, by decide⟩

/-- A list is a prefix of itself followed by anything, as a boolean
check. -/
theorem isPrefixOf_append_self (sub suf : List Char) :
    sub.isPrefixOf (sub ++ suf) = true := by
  induction sub with
  | nil => simp [List.isPrefixOf]
  | cons c t ih => simp [List.isPrefixOf, ih]

/-- A boolean prefix occurrence is a substring occurrence. -/
theorem charsContains_of_isPrefixOf (sub s : List Char) (h : sub.isPrefixOf s = true) :
    charsContains sub s = true := by
  cases s with
  | nil =>
    cases sub with
    | nil => rfl
    | cons c t => simp [List.isPrefixOf] at h
  | cons c t => simp [charsContains, h]

/-- Substring occurrences survive extending the text on the left by one
character. -/
theorem charsContains_cons_of (sub : List Char) (c : Char) (t : List Char)
    (h : charsContains sub t = true) : charsContains sub (c :: t) = true := by
  simp [charsContains, h]

/-- Substring occurrences survive extending the text on the left. -/
theorem charsContains_append_of (sub pre s : List Char) (h : charsContains sub s = true) :
    charsContains sub (pre ++ s) = true := by
  induction pre with
  | nil => exact h
  | cons c t ih => exact charsContains_cons_of _ _ _ ih

/-- Every list occurs as a substring at the front of itself. -/
theorem charsContains_self_append (sub suf : List Char) :
    charsContains sub (sub ++ suf) = true :=
  charsContains_of_isPrefixOf _ _ (isPrefixOf_append_self sub suf)

/-- A verb that is a member of the verb slice occurs as a substring of the
space-joined rendering, whatever follows it. -/
theorem charsContains_joinVerbs_of_mem (v : String) (vs : List String) (h : v ∈ vs)
    (rest : List Char) : charsContains v.data (joinVerbs vs ++ rest) = true := by
  induction vs with
  | nil => cases h
  | cons w t ih =>
    rcases List.mem_cons.mp h with heq | hmem
    · subst heq
      cases t with
      | nil => simpa [joinVerbs] using charsContains_self_append v.data rest
      | cons w2 t2 =>
        have h2 := charsContains_self_append v.data (' ' :: (joinVerbs (w2 :: t2) ++ rest))
        simpa [joinVerbs, List.append_assoc] using h2
    · cases t with
      | nil => cases hmem
      | cons w2 t2 =>
        have h2 := charsContains_cons_of _ ' ' _ (ih hmem)
        have h3 := charsContains_append_of v.data w.data _ h2
        simpa [joinVerbs, List.append_assoc] using h3

/-- Exact membership of both "list" and "delete" in the verb slice makes
the verb check pass. -/
theorem verbsSkip_false_of_mem (verbs : List String)
    (hl : "list" ∈ verbs) (hd : "delete" ∈ verbs) : verbsSkip verbs = false := by
  have h1 : charsContains "list".data (verbsString verbs) = true :=
    charsContains_cons_of _ _ _ (charsContains_joinVerbs_of_mem _ _ hl [']'])
  have h2 : charsContains "delete".data (verbsString verbs) = true :=
    charsContains_cons_of _ _ _ (charsContains_joinVerbs_of_mem _ _ hd [']'])
  simp [verbsSkip, h1, h2]

/-- C1 counterexample: the verb slice ["list", "deletecollection"] does
not contain the verb "delete" as a member, yet the resource-kind is
enumerated, because the code checks `strings.Contains` on the rendered
verb string and "deletecollection" contains "delete" as a substring. -/
theorem c1_verbs_counterexample :
    kindEnumerated [] ⟨"widgets", ["list", "deletecollection"]⟩ = true
  ∧ "delete" ∉ (["list", "deletecollection"] : List String) := by
  refine ⟨by decide, by decide⟩

/-- C1 as amended: a resource-kind is enumerated iff it passes the
allow-list check and the bracketed space-joined rendering of its verb
slice contains "list" and "delete" as substrings; exact membership of both
verbs is sufficient for the verb check (but not necessary, as the
counterexample shows). -/
theorem c1_verb_filter (watch : List String) (r : APIResource) :
    (kindEnumerated watch r = true ↔
        (allowListSkip watch r.name = false ∧
          charsContains "list".data (verbsString r.verbs) = true ∧
          charsContains "delete".data (verbsString r.verbs) = true))
  ∧ ("list" ∈ r.verbs → "delete" ∈ r.verbs → verbsSkip r.verbs = false) := by
  constructor
  · simp [kindEnumerated, verbsSkip]
  · exact verbsSkip_false_of_mem r.verbs

/-- Witness for C1 at a concrete verb slice containing both verbs. -/
theorem c1_verb_filter_witness :
    verbsSkip ["get", "list", "delete"] = false :=
  (c1_verb_filter [] ⟨"pods", ["get", "list", "delete"]⟩).2 (by decide) (by decide)

/-- The loop guard holds whenever the `list` pointer is nil. -/
theorem loopCond_none (tk : String) : loopCond ⟨none, tk⟩ = true := rfl

/-- Traces compose under event prefixing. -/
theorem traceOf_prependEvents (evs : List Event) (r : RunResult) :
    traceOf (prependEvents evs r) = evs ++ traceOf r := by
  cases r <;> rfl

/-- Prefixing events does not change whether the loop reached its exit. -/
theorem isDone_prependEvents (evs : List Event) (r : RunResult) :
    isDone (prependEvents evs r) = isDone r := by
  cases r <;> rfl

/-- Request tokens compose under event prefixing. -/
theorem requestTokens_prependEvents (evs : List Event) (r : RunResult) :
    requestTokens (prependEvents evs r) = evs.filterMap reqTok ++ requestTokens r := by
  simp [requestTokens, traceOf_prependEvents, List.filterMap_append]

/-- Item processing emits no request events. -/
theorem reqTok_processItem (env : Env) (item : Item) :
    (processItem env item).filterMap reqTok = [] := by
  cases h1 : lookupAnnot item.annotations AnnotationTTL with
  | none => simp [processItem, h1]
  | some s =>
    cases h2 : env.parseDuration s with
    | none => simp [processItem, h1, h2]
    | some d =>
      by_cases h : env.now > getStartTime env item + d <;>
        simp [processItem, h1, h2, h, reqTok]

/-- The item loop of a page emits no request events. -/
theorem reqTok_itemsEvents (env : Env) (items : List Item) :
    (itemsEvents env items).filterMap reqTok = [] := by
  induction items with
  | nil => rfl
  | cons i t ih => simp [itemsEvents, List.filterMap_append, reqTok_processItem, ih]

/-- Once the guard is false, the loop stops without issuing a request. -/
theorem runLoop_stop (env : Env) (s : LoopState) (rs : List ListResponse)
    (h : loopCond s = false) : runLoop env s rs = .done [] := by
  cases rs with
  | nil => simp [runLoop, h]
  | cons r rs => simp [runLoop, h]

/-- One failed request: the token is kept, the `list` pointer is reset to
nil, and the loop retries. -/
theorem runLoop_failure_step (env : Env) (s : LoopState) (rs : List ListResponse)
    (h : loopCond s = true) :
    runLoop env s (.failure :: rs) =
      prependEvents [.request s.token] (runLoop env ⟨none, s.token⟩ rs) := by
  simp [runLoop, h]

/-- One successful request: page stored, its continuation token adopted,
items processed, throttle slept. -/
theorem runLoop_success_step (env : Env) (s : LoopState) (page : Page)
    (rs : List ListResponse) (h : loopCond s = true) :
    runLoop env s (.success page :: rs) =
      prependEvents (.request s.token :: (itemsEvents env page.items ++ [.throttle]))
        (runLoop env ⟨some page, page.continueToken⟩ rs) := by
  simp [runLoop, h]

/-- C6: on a list error the pass is not aborted, the same page is retried
with the continuation token unchanged, and there is no per-call retry cap:
any number `n` of consecutive failures yields `n` further requests all
carrying the same token, after which the loop carries on with the
remaining responses. -/
theorem c6_list_error_retry (env : Env) (tk : String) (rs : List ListResponse) (n : ℕ) :
    traceOf (runLoop env ⟨none, tk⟩ (ListResponse.failure :: rs)) =
        Event.request tk :: traceOf (runLoop env ⟨none, tk⟩ rs)
  ∧ requestTokens (runLoop env ⟨none, tk⟩ (List.replicate n ListResponse.failure ++ rs)) =
        List.replicate n tk ++ requestTokens (runLoop env ⟨none, tk⟩ rs) := by
  constructor
  · rw [runLoop_failure_step env _ rs (loopCond_none tk), traceOf_prependEvents]
    rfl
  · induction n with
    | zero => simp
    | succ m ih =>
      rw [List.replicate_succ, List.cons_append,
        runLoop_failure_step env _ _ (loopCond_none tk),
        requestTokens_prependEvents, List.replicate_succ, ih]
      rfl

/-- C9: the pagination loop terminates exactly when some response is a
success carrying no continuation token (the loop stops at the first such
response, having made exactly one request per response up to and including
it); with no such response the loop exhausts every response still wanting
more. -/
theorem c9_pagination_termination (env : Env) (rs : List ListResponse) :
    isDone (runLoop env ⟨none, ""⟩ rs) = rs.any endsPagination
  ∧ (rs.any endsPagination = true →
      (requestTokens (runLoop env ⟨none, ""⟩ rs)).length = rs.findIdx endsPagination + 1) := by
  have main : ∀ (l : List ListResponse) (s : LoopState), loopCond s = true →
      isDone (runLoop env s l) = l.any endsPagination
      ∧ (l.any endsPagination = true →
          (requestTokens (runLoop env s l)).length = l.findIdx endsPagination + 1) := by
    intro l
    induction l with
    | nil =>
      intro s h
      constructor
      · simp [runLoop, h, isDone]
      · intro hany; simp at hany
    | cons r t ih =>
      intro s h
      cases r with
      | failure =>
        have hrec := ih ⟨none, s.token⟩ (loopCond_none s.token)
        constructor
        · rw [runLoop_failure_step env s t h, isDone_prependEvents, hrec.1]
          simp [endsPagination]
        · intro hany
          have hany' : t.any endsPagination = true := by
            simpa [endsPagination] using hany
          rw [runLoop_failure_step env s t h, requestTokens_prependEvents]
          simp [reqTok, List.findIdx_cons, endsPagination, hrec.2 hany']
      | success page =>
        by_cases ht : page.continueToken = ""
        · have hstop := runLoop_stop env ⟨some page, page.continueToken⟩ t
            (by simp [loopCond, ht])
          constructor
          · rw [runLoop_success_step env s page t h, isDone_prependEvents, hstop]
            simp [isDone, endsPagination, ht]
          · intro _
            rw [runLoop_success_step env s page t h, requestTokens_prependEvents, hstop]
            simp [requestTokens, traceOf, reqTok, List.filterMap_append,
              reqTok_itemsEvents, List.findIdx_cons, endsPagination, ht]
        · have hcond : loopCond ⟨some page, page.continueToken⟩ = true := by
            simp [loopCond, ht]
          have hbe : (page.continueToken == "") = false := by
            simp [ht]
          have hrec := ih ⟨some page, page.continueToken⟩ hcond
          constructor
          · rw [runLoop_success_step env s page t h, isDone_prependEvents, hrec.1]
            simp [endsPagination, hbe]
          · intro hany
            have hany' : t.any endsPagination = true := by
              simpa [endsPagination, hbe] using hany
            rw [runLoop_success_step env s page t h, requestTokens_prependEvents]
            simp [reqTok, List.filterMap_append, reqTok_itemsEvents,
              List.findIdx_cons, endsPagination, hbe, hrec.2 hany']
  exact main rs ⟨none, ""⟩ rfl

/-- Witness for C9: a failure, a continued page and a final page produce
a terminating loop with three requests. -/
theorem c9_pagination_termination_witness :
    isDone (runLoop witEnvPass ⟨none, ""⟩ witRsPager) = true
  ∧ (requestTokens (runLoop witEnvPass ⟨none, ""⟩ witRsPager)).length = 3 := by
  have h := c9_pagination_termination witEnvPass witRsPager
  exact ⟨by rw [h.1]; decide, by rw [h.2 (by decide)]; decide⟩

/-- C10: after a failed list request the very next trace event is the next
request for the same page — no throttle sleep runs between consecutive
attempts — while the processing of a successfully fetched page does
include the page throttle. -/
theorem c10_no_throttle_between_retries (env : Env) (tk : String) (rs : List ListResponse) :
    (traceOf (runLoop env ⟨none, tk⟩ (ListResponse.failure :: rs))).head? =
        some (Event.request tk)
  ∧ (rs ≠ [] →
        (traceOf (runLoop env ⟨none, tk⟩ (ListResponse.failure :: rs))).tail.head? =
          some (Event.request tk))
  ∧ (∀ page, Event.throttle ∈ traceOf (runLoop env ⟨none, tk⟩ (ListResponse.success page :: rs))) := by
  refine ⟨?_, ?_, ?_⟩
  · rw [runLoop_failure_step env _ rs (loopCond_none tk), traceOf_prependEvents]
    rfl
  · intro hrs
    rw [runLoop_failure_step env _ rs (loopCond_none tk), traceOf_prependEvents]
    cases rs with
    | nil => exact absurd rfl hrs
    | cons r rs' =>
      cases r with
      | failure =>
        rw [runLoop_failure_step env _ rs' (loopCond_none tk), traceOf_prependEvents]
        rfl
      | success page =>
        rw [runLoop_success_step env _ page rs' (loopCond_none tk), traceOf_prependEvents]
        rfl
  · intro page
    rw [runLoop_success_step env _ page rs (loopCond_none tk), traceOf_prependEvents]
    simp

/-- Witness for C10: two consecutive failures put two requests with the
same token at the head of the trace. -/
theorem c10_no_throttle_between_retries_witness :
    (traceOf (runLoop witEnvPass ⟨none, "tok0"⟩
        [ListResponse.failure, ListResponse.failure])).tail.head? =
      some (Event.request "tok0") :=
  (c10_no_throttle_between_retries witEnvPass "tok0" [ListResponse.failure]).2.1 (by decide)

/-- Whether the pagination loop exits does not depend on the clock, the
parsers, or the delete outcomes: only the response sequence decides it. -/
theorem runLoop_isDone_env_irrel (env env' : Env) (s : LoopState) (rs : List ListResponse) :
    isDone (runLoop env s rs) = isDone (runLoop env' s rs) := by
  induction rs generalizing s with
  | nil => rfl
  | cons r t ih =>
    by_cases h : loopCond s = true
    · cases r with
      | failure =>
        rw [runLoop_failure_step env s t h, runLoop_failure_step env' s t h,
          isDone_prependEvents, isDone_prependEvents]
        exact ih _
      | success page =>
        rw [runLoop_success_step env s page t h, runLoop_success_step env' s page t h,
          isDone_prependEvents, isDone_prependEvents]
        exact ih _
    · have h' : loopCond s = false := by simpa using h
      rw [runLoop_stop env s _ h', runLoop_stop env' s _ h']

/-- The per-group kind loop gives the same completion verdict in any two
environments. -/
theorem processKinds_env_irrel (env env' : Env) (lrs : GroupVersionResource → List ListResponse)
    (watch : List String) (grp ver : String) (l : List APIResource) :
    processKinds env lrs watch grp ver l = processKinds env' lrs watch grp ver l := by
  induction l with
  | nil => rfl
  | cons r rest ih =>
    unfold processKinds
    rw [ih, runLoop_isDone_env_irrel env env']

/-- The group loop gives the same completion verdict in any two
environments. -/
theorem processGroups_env_irrel (env env' : Env) (lrs : GroupVersionResource → List ListResponse)
    (watch : List String) (l : List APIResourceList) :
    processGroups env lrs watch l = processGroups env' lrs watch l := by
  induction l with
  | nil => rfl
  | cons g rest ih =>
    unfold processGroups
    rw [ih]
    by_cases hlen : g.apiResources.length = 0
    · simp [hlen]
    · cases hpv : parseGroupVersion g.groupVersion with
      | none => simp [hlen, hpv]
      | some p =>
        obtain ⟨grp, ver⟩ := p
        simp [hlen, hpv, processKinds_env_irrel env env']

/-- When the group loop completes, the value it completes with is `true`. -/
theorem processGroups_eq_some_true (env : Env) (lrs : GroupVersionResource → List ListResponse)
    (watch : List String) (l : List APIResourceList) (b : Bool)
    (h : processGroups env lrs watch l = some b) : b = true := by
  induction l with
  | nil =>
    rw [processGroups] at h
    cases h
    rfl
  | cons g rest ih =>
    rw [processGroups] at h
    by_cases hlen : g.apiResources.length = 0
    · rw [if_pos hlen] at h
      exact ih h
    · rw [if_neg hlen] at h
      cases hpv : parseGroupVersion g.groupVersion with
      | none => rw [hpv] at h; exact ih h
      | some p =>
        obtain ⟨grp, ver⟩ := p
        rw [hpv] at h
        cases hk : processKinds env lrs watch grp ver g.apiResources with
        | none => simp [hk] at h
        | some c =>
          simp only [hk] at h
          exact ih h

/-- C5: the pass-level result is decided only by discovery failure and the
deadline race.  A discovery error is returned as is; if the deadline timer
wins the race the pass returns the timed-out error even though deletions
may already have happened; if the pipeline wins the pass returns success,
and the pipeline's verdict is `true` independently of every per-instance
outcome (clock, parsers and delete successes are irrelevant to it). -/
theorem c5_pass_result (e : String) (resources : List APIResourceList)
    (env env' : Env) (lrs : GroupVersionResource → List ListResponse)
    (watch : List String) (timerFirst : Bool) :
    Reconcile (.error e) timerFirst env lrs watch = some e
  ∧ Reconcile (.ok resources) true env lrs watch = some ErrTimedOut
  ∧ Reconcile (.ok resources) false env lrs watch = none
  ∧ (∀ b, DoReconcile env lrs watch resources = some b → b = true)
  ∧ DoReconcile env lrs watch resources = DoReconcile env' lrs watch resources := by
  refine ⟨rfl, rfl, rfl, fun b hb => processGroups_eq_some_true env lrs watch resources b hb,
    processGroups_env_irrel env env' lrs watch resources⟩

/-- Witness for C5: a concrete one-kind snapshot whose pipeline completes
with `true`, the only value `DoReconcile` can complete with. -/
theorem c5_pass_result_witness :
    DoReconcile witEnvPass witLrsPass [] witResPass = some true
  ∧ (true : Bool) = true :=
  ⟨by decide,
   (c5_pass_result "discovery failed" witResPass witEnvPass witEnvPass witLrsPass []
      true).2.2.2.1 true (by decide)⟩

end K8sTTL
